import Mathlib

/-!
Verification of the LLM query/fallback subsystem and response-extraction
utilities of the AppCreator repository.

The embedding translates the Python sources into Lean:

* `src/utils/llm_helpers.py` — `query_llm` (fallback orchestrator over a
  static priority list `LLM_PRIORITY` from `src/utils/llm_config.py`, with a
  provider dispatch map `PROVIDER_FN` keyed by `"groq"` and `"google"`).
  The network behaviour of each provider invoker is abstracted as an oracle
  `invoke : provider → prompt → model → Except errorMessage text`; `max_tokens`
  and `temperature` are forwarded unchanged by the orchestrator and are
  absorbed into the oracle.  Alongside the returned value the embedding also
  records the ordered trace of (provider, model) pairs whose invoker was
  actually called.
* `src/app.py` — `parse_framework_suggestion` and `extract_list_or_json`.
  Python strings are modelled through their character lists; `str.strip`,
  `str.lower`, `str.startswith`, `str.splitlines` and `str.split(sep, 1)` are
  given explicit character-level models.  The two stdlib text parsers used by
  `extract_list_or_json` (`json.loads` and `ast.literal_eval`) are modelled by
  executable recursive-descent readers over the fragment of JSON / Python
  literal syntax relevant to the tool (strings without unicode escapes,
  integers, booleans, null/None, arrays/lists, objects/dicts; floats and
  more exotic escapes are outside the modelled fragment and count as parse
  failures).  The regular expressions of `extract_list_or_json` are modelled
  directly: removal of a leading code fence (everything up to and including
  the first triple backtick, following ASCII letters and one optional
  newline), truncation at the next triple backtick (`$` may leave a final
  newline behind, which the immediately following `strip()` removes — the
  model truncates to the end and the composition agrees), and the search for
  the span from the first opening square bracket to the last closing one.
* `src/utils/file_helpers.py` — `write_text_log`.  The file system is
  modelled by the current content of the log file; opening in append mode and
  writing corresponds to string concatenation.  `datetime.now().strftime` is
  modelled by a `Timestamp` record rendered with zero-padded fields exactly
  in the `[%Y-%m-%d %H:%M:%S]` shape.
-/

/-- Result values produced by the response extractors: the subset of Python
values that `json.loads` / `ast.literal_eval` can return in this pipeline. -/
inductive PyVal where
  | str : String → PyVal
  | int : Int → PyVal
  | bool : Bool → PyVal
  | null : PyVal
  | list : List PyVal → PyVal
  | dict : List (PyVal × PyVal) → PyVal

/-! ### Character-level models of Python string primitives -/

/-- The whitespace recognised by Python's `str.strip()` (ASCII fragment). -/
def pyIsSpace (c : Char) : Bool :=
  (c == ' ') || (c == '\t') || (c == '\n') || (c == '\r') || (c == '\x0b') || (c == '\x0c')

/-- `str.strip()` on a character list: drop whitespace from both ends. -/
def stripChars (l : List Char) : List Char :=
  ((l.dropWhile pyIsSpace).reverse.dropWhile pyIsSpace).reverse

/-- `str.strip()`. -/
def pyStrip (s : String) : String := String.mk (stripChars s.data)

/-- Normalise `"\r\n"` and `"\r"` line breaks to `"\n"`, the first step of the
`str.splitlines` model. -/
def replaceCRLF : List Char → List Char
  | [] => []
  | '\r' :: '\n' :: rest => '\n' :: replaceCRLF rest
  | '\r' :: rest => '\n' :: replaceCRLF rest
  | c :: rest => c :: replaceCRLF rest

/-- Split at `'\n'` the way `str.splitlines` does: no entry is produced for a
terminating newline, and the empty string yields no lines. -/
def splitNl : List Char → List (List Char)
  | [] => []
  | '\n' :: rest => [] :: splitNl rest
  | c :: rest =>
    match splitNl rest with
    | [] => [[c]]
    | l :: ls => (c :: l) :: ls

/-- `str.splitlines()` for inputs whose line breaks are `\n`, `\r\n` or `\r`. -/
def pySplitlines (s : String) : List String :=
  (splitNl (replaceCRLF s.data)).map String.mk

/-- `str.lower()` (ASCII fragment). -/
def pyLower (s : String) : String := String.mk (s.data.map Char.toLower)

/-- `str.startswith(pre)`. -/
def pyStartsWith (s pre : String) : Bool := pre.data.isPrefixOf s.data

/-- The characters after the first `':'`.  Models `line.split(":", 1)[1]`;
the callers in `parse_framework_suggestion` only reach it on lines that start
with a label containing a colon, so a colon is always present (on a colon-free
line Python would raise `IndexError`, a case that is unreachable there). -/
def afterColonChars : List Char → List Char
  | [] => []
  | ':' :: rest => rest
  | _ :: rest => afterColonChars rest

/-- `line.split(":", 1)[1]` as a string operation. -/
def splitFirstColonTail (line : String) : String := String.mk (afterColonChars line.data)

/-! ### The fallback orchestrator `query_llm` (src/utils/llm_helpers.py) -/

/-- One (provider, model) candidate, as in the entries of `LLM_PRIORITY`. -/
structure ProviderConfig where
  provider : String
  model : String
deriving DecidableEq, Repr

/-- The static priority list from `src/utils/llm_config.py`. -/
def LLM_PRIORITY : List ProviderConfig :=
  [{ provider := "groq", model := "llama3-70b-8192" },
   { provider := "google", model := "gemini-2.0-flash" }]

/-- The keys of the provider dispatch map `PROVIDER_FN` in
`src/utils/llm_helpers.py`; `PROVIDER_FN.get(prov)` is `None` exactly for
providers outside this list. -/
def PROVIDER_FN_keys : List String := ["groq", "google"]

/-- Python truthiness of the optional `provider` / `model` arguments:
`None` and the empty string are falsy. -/
def truthyOpt : Option String → Bool
  | Option.none => false
  | Option.some s => decide (s ≠ "")

/-- The candidate list built at the top of `query_llm`: the preferred
(provider, model) pair first when both are truthy, then every entry of the
priority list whose (provider, model) tuple differs from the preferred pair
(the Python code compares the raw tuple, including `None` components). -/
def build_config_list (provider model : Option String) (priority : List ProviderConfig) :
    List ProviderConfig :=
  (if truthyOpt provider && truthyOpt model then
      [{ provider := provider.getD "", model := model.getD "" }]
    else []) ++
  priority.filter (fun c =>
    !(decide ((Option.some c.provider, Option.some c.model) = (provider, model))))

/-- One recorded failure, `f"{prov}:{mod} -- {e}"`. -/
def errEntry (p m e : String) : String := p ++ ":" ++ m ++ " -- " ++ e

/-- `sep.join(entries)`. -/
def joinSep (sep : String) : List String → String
  | [] => ""
  | [x] => x
  | x :: xs => x ++ sep ++ joinSep sep xs

/-- The message of the final `RuntimeError` raised when every candidate
failed. -/
def allFailedMsg (errors : List String) : String :=
  "All LLM providers failed. Errors: " ++ joinSep " | " errors

/-- The candidate loop of `query_llm`: skip a candidate whose provider has no
entry in `PROVIDER_FN` or that was already tried; otherwise call its invoker,
returning its text on success and recording `provider:model -- reason` and
falling through on an exception.  The second component is the ordered trace
of (provider, model) pairs whose invoker was called. -/
def query_llm_aux (invoke : String → String → String → Except String String) (prompt : String) :
    List ProviderConfig → List (String × String) → List String →
    Except String String × List (String × String)
  | [], _, errors => (Except.error (allFailedMsg errors), [])
  | c :: rest, tried, errors =>
    if c.provider ∉ PROVIDER_FN_keys ∨ (c.provider, c.model) ∈ tried then
      query_llm_aux invoke prompt rest tried errors
    else
      match invoke c.provider prompt c.model with
      | Except.ok t => (Except.ok t, [(c.provider, c.model)])
      | Except.error e =>
        let r := query_llm_aux invoke prompt rest ((c.provider, c.model) :: tried)
          (errors ++ [errEntry c.provider c.model e])
        (r.1, (c.provider, c.model) :: r.2)

/-- `query_llm(prompt, provider, model, ...)` with the priority list passed
explicitly and the provider invokers abstracted as `invoke`.  Returns the
orchestrator's result (`Except.error` models the raised `RuntimeError`)
together with the trace of attempted candidates. -/
def query_llm (invoke : String → String → String → Except String String)
    (prompt : String) (priority : List ProviderConfig)
    (provider model : Option String) : Except String String × List (String × String) :=
  query_llm_aux invoke prompt (build_config_list provider model priority) [] []

/-- The error message an `invoke` oracle would raise for a pair, and `""` on a
pair whose invoker succeeds (only used on attempted-and-failed pairs). -/
def invokeErr (invoke : String → String → String → Except String String)
    (prompt p m : String) : String :=
  match invoke p prompt m with
  | Except.error e => e
  | Except.ok _ => ""

/-! ### JSON / Python-literal readers (models of json.loads / ast.literal_eval) -/

/-- The whitespace skipped between JSON tokens (`json.loads`); the Python
tokenizer skips the same characters between literal tokens in the inputs this
pipeline feeds to `ast.literal_eval`. -/
def skipWsChars : List Char → List Char :=
  List.dropWhile (fun c => (c == ' ') || (c == '\t') || (c == '\n') || (c == '\r'))

/-- Read a non-negative decimal integer, rejecting leading zeros (both JSON
numbers and Python integer literals reject `01`). -/
def parseNatNoLeadZero (cs : List Char) : Option (Nat × List Char) :=
  let ds := cs.takeWhile (fun c => c.isDigit)
  match ds with
  | [] => Option.none
  | ['0'] => Option.some (0, cs.drop 1)
  | '0' :: _ => Option.none
  | _ => Option.some (ds.foldl (fun a c => a * 10 + (c.toNat - 48)) 0, cs.drop ds.length)

/-- Body of a double-quoted JSON string after the opening quote, with the
escape fragment used by this pipeline. -/
def jstringChars : List Char → Option (List Char × List Char)
  | [] => Option.none
  | '\\' :: c :: rest =>
    let e : Option Char :=
      if c = '"' then Option.some '"'
      else if c = '\\' then Option.some '\\'
      else if c = '/' then Option.some '/'
      else if c = 'n' then Option.some '\n'
      else if c = 't' then Option.some '\t'
      else if c = 'r' then Option.some '\r'
      else Option.none
    match e with
    | Option.some ch => (jstringChars rest).map (fun p => (ch :: p.1, p.2))
    | Option.none => Option.none
  | '"' :: rest => Option.some ([], rest)
  | c :: rest => (jstringChars rest).map (fun p => (c :: p.1, p.2))

/-- Body of a Python string literal with quote character `q` after the opening
quote, with the escape fragment used by this pipeline. -/
def pstringChars (q : Char) : List Char → Option (List Char × List Char)
  | [] => Option.none
  | '\\' :: c :: rest =>
    let e : Option Char :=
      if c = '\'' then Option.some '\''
      else if c = '"' then Option.some '"'
      else if c = '\\' then Option.some '\\'
      else if c = 'n' then Option.some '\n'
      else if c = 't' then Option.some '\t'
      else if c = 'r' then Option.some '\r'
      else Option.none
    match e with
    | Option.some ch => (pstringChars q rest).map (fun p => (ch :: p.1, p.2))
    | Option.none => Option.none
  | c :: rest =>
    if c = q then Option.some ([], rest)
    else (pstringChars q rest).map (fun p => (c :: p.1, p.2))

/-- Fuel-driven recursive-descent reader for the JSON fragment (model of
`json.loads`).  The second argument selects the production: 0 = value,
1 = array items or immediate `]`, 3 = at least one array item,
2 = object members or immediate `\x7d`, 4 = at least one member.  Trailing
commas are rejected, as in strict JSON. -/
def jrun : Nat → Nat → List Char → Option (PyVal × List Char)
  | 0, _, _ => Option.none
  | fuel+1, 0, cs =>
    match skipWsChars cs with
    | 'n' :: 'u' :: 'l' :: 'l' ::rest => Option.some (PyVal.null, rest)
    | 't' :: 'r' :: 'u' :: 'e' ::rest => Option.some (PyVal.bool true, rest)
    | 'f' :: 'a' :: 'l' :: 's' :: 'e' ::rest => Option.some (PyVal.bool false, rest)
    | '"' ::rest =>
      match jstringChars rest with
      | Option.some (s, r) => Option.some (PyVal.str (String.mk s), r)
      | Option.none => Option.none
    | '[' ::rest => jrun fuel 1 (skipWsChars rest)
    | '{' ::rest => jrun fuel 2 (skipWsChars rest)
    | '-' ::rest =>
      match parseNatNoLeadZero rest with
      | Option.some (n, r) => Option.some (PyVal.int (-(n : Int)), r)
      | Option.none => Option.none
    | cs' =>
      match parseNatNoLeadZero cs' with
      | Option.some (n, r) => Option.some (PyVal.int (n : Int), r)
      | Option.none => Option.none
  | fuel+1, 1, cs =>
    match cs with
    | ']' ::rest => Option.some (PyVal.list [], rest)
    | _ => jrun fuel 3 cs
  | fuel+1, 3, cs =>
    match jrun fuel 0 cs with
    | Option.some (v, r) =>
      match skipWsChars r with
      | ',' ::r2 =>
        match jrun fuel 3 (skipWsChars r2) with
        | Option.some (PyVal.list vs, r3) => Option.some (PyVal.list (v::vs), r3)
        | _ => Option.none
      | ']' ::r2 => Option.some (PyVal.list [v], r2)
      | _ => Option.none
    | Option.none => Option.none
  | fuel+1, 2, cs =>
    match cs with
    | '}' ::rest => Option.some (PyVal.dict [], rest)
    | _ => jrun fuel 4 cs
  | fuel+1, 4, cs =>
    match cs with
    | '"' ::rest =>
      match jstringChars rest with
      | Option.some (k, r) =>
        match skipWsChars r with
        | ':' ::r2 =>
          match jrun fuel 0 (skipWsChars r2) with
          | Option.some (v, r3) =>
            match skipWsChars r3 with
            | ',' ::r4 =>
              match jrun fuel 4 (skipWsChars r4) with
              | Option.some (PyVal.dict kvs, r5) =>
                Option.some (PyVal.dict ((PyVal.str (String.mk k), v)::kvs), r5)
              | _ => Option.none
            | '}' ::r4 => Option.some (PyVal.dict [(PyVal.str (String.mk k), v)], r4)
            | _ => Option.none
          | Option.none => Option.none
        | _ => Option.none
      | Option.none => Option.none
    | _ => Option.none
  | _+1, _, _ => Option.none

/-- `json.loads` on the modelled fragment: a single JSON value with nothing
but whitespace after it. -/
def jsonLoadsChars (l : List Char) : Option PyVal :=
  match jrun (2 * l.length + 2) 0 l with
  | Option.some (v, rest) => if (skipWsChars rest).isEmpty then Option.some v else Option.none
  | Option.none => Option.none

/-- Fuel-driven reader for the Python literal fragment (model of
`ast.literal_eval`): `None`/`True`/`False`, signed integers, single- or
double-quoted strings, lists and dicts, with trailing commas allowed and
arbitrary literals as dict keys.  Same production numbering as `jrun`. -/
def plrun : Nat → Nat → List Char → Option (PyVal × List Char)
  | 0, _, _ => Option.none
  | fuel+1, 0, cs =>
    match skipWsChars cs with
    | 'N' :: 'o' :: 'n' :: 'e' ::rest => Option.some (PyVal.null, rest)
    | 'T' :: 'r' :: 'u' :: 'e' ::rest => Option.some (PyVal.bool true, rest)
    | 'F' :: 'a' :: 'l' :: 's' :: 'e' ::rest => Option.some (PyVal.bool false, rest)
    | '\''::rest =>
      match pstringChars '\'' rest with
      | Option.some (s, r) => Option.some (PyVal.str (String.mk s), r)
      | Option.none => Option.none
    | '"' ::rest =>
      match pstringChars '"' rest with
      | Option.some (s, r) => Option.some (PyVal.str (String.mk s), r)
      | Option.none => Option.none
    | '[' ::rest => plrun fuel 1 (skipWsChars rest)
    | '{' ::rest => plrun fuel 2 (skipWsChars rest)
    | '-' ::rest =>
      match parseNatNoLeadZero rest with
      | Option.some (n, r) => Option.some (PyVal.int (-(n : Int)), r)
      | Option.none => Option.none
    | '+' ::rest =>
      match parseNatNoLeadZero rest with
      | Option.some (n, r) => Option.some (PyVal.int (n : Int), r)
      | Option.none => Option.none
    | cs' =>
      match parseNatNoLeadZero cs' with
      | Option.some (n, r) => Option.some (PyVal.int (n : Int), r)
      | Option.none => Option.none
  | fuel+1, 1, cs =>
    match cs with
    | ']' ::rest => Option.some (PyVal.list [], rest)
    | _ => plrun fuel 3 cs
  | fuel+1, 3, cs =>
    match plrun fuel 0 cs with
    | Option.some (v, r) =>
      match skipWsChars r with
      | ',' ::r2 =>
        match skipWsChars r2 with
        | ']' ::r3 => Option.some (PyVal.list [v], r3)
        | r2' =>
          match plrun fuel 3 r2' with
          | Option.some (PyVal.list vs, r3) => Option.some (PyVal.list (v::vs), r3)
          | _ => Option.none
      | ']' ::r2 => Option.some (PyVal.list [v], r2)
      | _ => Option.none
    | Option.none => Option.none
  | fuel+1, 2, cs =>
    match cs with
    | '}' ::rest => Option.some (PyVal.dict [], rest)
    | _ => plrun fuel 4 cs
  | fuel+1, 4, cs =>
    match plrun fuel 0 cs with
    | Option.some (k, r) =>
      match skipWsChars r with
      | ':' ::r2 =>
        match plrun fuel 0 (skipWsChars r2) with
        | Option.some (v, r3) =>
          match skipWsChars r3 with
          | ',' ::r4 =>
            match skipWsChars r4 with
            | '}' ::r5 => Option.some (PyVal.dict [(k, v)], r5)
            | r4' =>
              match plrun fuel 4 r4' with
              | Option.some (PyVal.dict kvs, r5) => Option.some (PyVal.dict ((k, v)::kvs), r5)
              | _ => Option.none
          | '}' ::r4 => Option.some (PyVal.dict [(k, v)], r4)
          | _ => Option.none
        | Option.none => Option.none
      | _ => Option.none
    | Option.none => Option.none
  | _+1, _, _ => Option.none

/-- `ast.literal_eval` on the modelled fragment: a single literal with nothing
but whitespace after it. -/
def pyLiteralEvalChars (l : List Char) : Option PyVal :=
  match plrun (2 * l.length + 2) 0 l with
  | Option.some (v, rest) => if (skipWsChars rest).isEmpty then Option.some v else Option.none
  | Option.none => Option.none

/-! ### Fence stripping and bracket search (src/app.py) -/

/-- The backtick character. -/
def backtickChar : Char := Char.ofNat 96

/-- The suffix after the first triple backtick, scanning left to right;
`Option.none` when the text has no triple backtick.  This is the match of the
non-greedy `DOTALL` pattern that removes everything through the first fence
opener. -/
def afterFirstFence : List Char → Option (List Char)
  | [] => Option.none
  | c1 :: rest =>
    match rest with
    | c2 :: c3 :: rest2 =>
      if c1 = backtickChar ∧ c2 = backtickChar ∧ c3 = backtickChar then Option.some rest2
      else afterFirstFence rest
    | _ => Option.none

/-- Is `c` an ASCII letter (`[a-zA-Z]`)? -/
def isAsciiAlpha (c : Char) : Bool :=
  (('a' ≤ c) && (c ≤ 'z')) || (('A' ≤ c) && (c ≤ 'Z'))

/-- Drop one leading newline, for the optional `\n?` after the fence opener. -/
def dropOneNl : List Char → List Char
  | '\n' :: t => t
  | t => t

/-- Model of the first substitution in `extract_list_or_json` and
`parse_tool_discovery_code_block`: remove everything up to and including the
first triple backtick, then any ASCII letters (the language tag), then one
optional newline; a fence-free text is unchanged. -/
def stripLeadingFenceChars (l : List Char) : List Char :=
  match afterFirstFence l with
  | Option.some rest => dropOneNl (rest.dropWhile isAsciiAlpha)
  | Option.none => l

/-- Model of the second substitution: truncate at the first remaining triple
backtick.  (The Python pattern anchored at `$` can leave one final newline in
place, which the `strip()` applied immediately afterwards removes; truncating
to the end composes to the same result.) -/
def truncFence : List Char → List Char
  | [] => []
  | c1 :: rest =>
    match rest with
    | c2 :: c3 :: _ =>
      if c1 = backtickChar ∧ c2 = backtickChar ∧ c3 = backtickChar then []
      else c1 :: truncFence rest
    | _ => c1 :: truncFence rest

/-- Model of `re.search(r"\[.*\]", cleaned, flags=re.DOTALL)`: the span from
the first `'['` to the last `']'` after it, inclusive; `Option.none` when no
such span exists. -/
def bracketSliceChars (l : List Char) : Option (List Char) :=
  let pre := l.takeWhile (fun c => !(c == '['))
  let fromB := l.drop pre.length
  let tailA := fromB.reverse.takeWhile (fun c => !(c == ']'))
  if fromB.length = 0 ∨ tailA.length = fromB.length then Option.none
  else Option.some (fromB.take (fromB.length - tailA.length))

/-- `extract_list_or_json` on the character list of the response: strip,
remove a leading code fence, truncate at the next fence and strip again, then
replace the text by the span from the first `'['` to the last `']'` when one
exists, and finally try the strict JSON reader, then the permissive literal
reader, falling back to the empty list. -/
def extractChars (l : List Char) : PyVal :=
  let c0 := stripChars l
  let c1 := stripLeadingFenceChars c0
  let c2 := stripChars (truncFence c1)
  let payload :=
    match bracketSliceChars c2 with
    | Option.some p => p
    | Option.none => c2
  match jsonLoadsChars payload with
  | Option.some v => v
  | Option.none =>
    match pyLiteralEvalChars payload with
    | Option.some v => v
    | Option.none => PyVal.list []

/-- `extract_list_or_json(response)` from `src/app.py`. -/
def extract_list_or_json (response : String) : PyVal := extractChars response.data

/-- Is the value a Python sequence (a list)?  Used to state that
`extract_list_or_json` can return a non-sequence. -/
def isSequence : PyVal → Bool
  | PyVal.list _ => true
  | _ => false

/-! ### parse_framework_suggestion (src/app.py) -/

/-- The loop body of `parse_framework_suggestion`: a line whose lowercase form
starts with `"framework:"` overwrites the framework accumulator with the
trimmed text after its first colon; `"justification:"` likewise for the
second accumulator; other lines are ignored. -/
def fwStep (acc : Option String × String) (line : String) : Option String × String :=
  if pyStartsWith (pyLower line) "framework:" then
    (Option.some (pyStrip (splitFirstColonTail line)), acc.2)
  else if pyStartsWith (pyLower line) "justification:" then
    (acc.1, pyStrip (splitFirstColonTail line))
  else acc

/-- `parse_framework_suggestion(response)` from `src/app.py`: fold the loop
body over `response.strip().splitlines()` starting from `(None, "")`. -/
def parse_framework_suggestion (response : String) : Option String × String :=
  (pySplitlines (pyStrip response)).foldl fwStep (Option.none, "")

/-- The last element of a list satisfying `p`, if any.  Used to state the
last-occurrence-wins behaviour of `parse_framework_suggestion`. -/
def lastMatch (p : String → Bool) : List String → Option String
  | [] => Option.none
  | l :: rest =>
    match lastMatch p rest with
    | Option.some v => Option.some v
    | Option.none => if p l then Option.some l else Option.none

/-- Specification-side description of `parse_framework_suggestion`: the value
of the last `"framework:"` line (None when there is none) and of the last
`"justification:"` line (empty string when there is none), each taken as the
trimmed text after the line's first colon. -/
def parse_framework_last_wins (response : String) : Option String × String :=
  let lines := pySplitlines (pyStrip response)
  ((lastMatch (fun l => pyStartsWith (pyLower l) "framework:") lines).map
      (fun l => pyStrip (splitFirstColonTail l)),
   ((lastMatch (fun l => pyStartsWith (pyLower l) "justification:") lines).map
      (fun l => pyStrip (splitFirstColonTail l))).getD "")

/-! ### write_text_log (src/utils/file_helpers.py) -/

/-- The fields `datetime.datetime.now()` provides to `strftime`. -/
structure Timestamp where
  year : Nat
  month : Nat
  day : Nat
  hour : Nat
  minute : Nat
  second : Nat

/-- The decimal digit character of `n % 10`. -/
def digitChar (n : Nat) : Char :=
  match n % 10 with
  | 0 => '0' | 1 => '1' | 2 => '2' | 3 => '3' | 4 => '4'
  | 5 => '5' | 6 => '6' | 7 => '7' | 8 => '8' | _ => '9'

/-- Two-digit zero-padded rendering (`%m`, `%d`, `%H`, `%M`, `%S`; the
`datetime` fields are below 100). -/
def pad2 (n : Nat) : List Char := [digitChar (n / 10), digitChar n]

/-- Four-digit zero-padded rendering (`%Y`; `datetime` years are below
10000). -/
def pad4 (n : Nat) : List Char :=
  [digitChar (n / 1000), digitChar (n / 100), digitChar (n / 10), digitChar n]

/-- The characters between the brackets: `%Y-%m-%d %H:%M:%S`. -/
def timestampChars (t : Timestamp) : List Char :=
  pad4 t.year ++ '-' :: pad2 t.month ++ '-' :: pad2 t.day ++
  ' ' :: pad2 t.hour ++ ':' :: pad2 t.minute ++ ':' :: pad2 t.second

/-- `datetime.datetime.now().strftime("[%Y-%m-%d %H:%M:%S]")`. -/
def strftimeBracketed (t : Timestamp) : String :=
  String.mk ('[' :: timestampChars t ++ [']'])

/-- The single entry appended per call: bracketed timestamp, one space, the
entry text and two newlines. -/
def logEntry (t : Timestamp) (text : String) : String :=
  strftimeBracketed t ++ " " ++ text ++ "\n\n"

/-- `write_text_log(text, filename)` from `src/utils/file_helpers.py`: the log
file is opened in append mode, so its new content is the old content followed
by the formatted entry. -/
def write_text_log (now : Timestamp) (text : String) (content : String) : String :=
  content ++ logEntry now text

/-- Read one log entry back: the bracketed prefix up to the first `']'` is the
timestamp, a single space follows, and the entry text is everything up to the
two final newlines. -/
def parseLogEntry (entry : String) : Option (String × String) :=
  match entry.data with
  | '[' :: rest =>
    match rest.dropWhile (fun c => !(c == ']')) with
    | ']' :: ' ' :: body =>
      match body.reverse with
      | '\n' :: '\n' :: revText =>
        Option.some (String.mk (rest.takeWhile (fun c => !(c == ']'))), String.mk revText.reverse)
      | _ => Option.none
    | _ => Option.none
  | _ => Option.none

/-! ### Concrete invoker oracles used as witnesses -/

/-- An oracle on which every provider call raises. -/
def boomInvoke : String → String → String → Except String String :=
  fun _ _ _ => Except.error "boom"

/-- An oracle on which the groq invoker returns non-empty text and every other
provider raises. -/
def helloInvoke : String → String → String → Except String String :=
  fun p _ _ => if p = "groq" then Except.ok "hello" else Except.error "down"

/-- An oracle on which every provider call returns empty text. -/
def emptyInvoke : String → String → String → Except String String :=
  fun _ _ _ => Except.ok ""

/-! ### Lemmas about the orchestrator loop -/

theorem query_llm_aux_first_ok (invoke : String → String → String → Except String String)
    (prompt : String) (configs : List ProviderConfig) (tried : List (String × String))
    (errors : List String) (p m : String) (rest : List (String × String)) (t : String)
    (htrace : (query_llm_aux invoke prompt configs tried errors).2 = (p, m) :: rest)
    (hok : invoke p prompt m = Except.ok t) :
    query_llm_aux invoke prompt configs tried errors = (Except.ok t, [(p, m)]) := by
  induction configs generalizing tried errors with
  | nil => simp [query_llm_aux] at htrace
  | cons c cs ih =>
    by_cases hskip : c.provider ∉ PROVIDER_FN_keys ∨ (c.provider, c.model) ∈ tried
    · rw [query_llm_aux, if_pos hskip] at htrace ⊢
      exact ih tried errors htrace
    · cases hinv : invoke c.provider prompt c.model with
      | ok t' =>
        rw [query_llm_aux, if_neg hskip, hinv] at htrace ⊢
        simp at htrace
        obtain ⟨⟨hp, hm⟩, -⟩ := htrace
        subst hp; subst hm
        rw [hinv] at hok
        simp at hok
        simp [hok]
      | error e =>
        rw [query_llm_aux, if_neg hskip, hinv] at htrace
        simp at htrace
        obtain ⟨⟨hp, hm⟩, -⟩ := htrace
        subst hp; subst hm
        rw [hok] at hinv
        exact absurd hinv (by simp)

theorem query_llm_aux_ok (invoke : String → String → String → Except String String)
    (prompt : String) (configs : List ProviderConfig) (tried : List (String × String))
    (errors : List String) (t : String)
    (hok : (query_llm_aux invoke prompt configs tried errors).1 = Except.ok t) :
    ∃ pm ∈ (query_llm_aux invoke prompt configs tried errors).2,
      invoke pm.1 prompt pm.2 = Except.ok t := by
  induction configs generalizing tried errors with
  | nil => simp [query_llm_aux] at hok
  | cons c cs ih =>
    by_cases hskip : c.provider ∉ PROVIDER_FN_keys ∨ (c.provider, c.model) ∈ tried
    · rw [query_llm_aux, if_pos hskip] at hok ⊢
      exact ih tried errors hok
    · cases hinv : invoke c.provider prompt c.model with
      | ok t' =>
        rw [query_llm_aux, if_neg hskip, hinv] at hok ⊢
        simp at hok
        subst hok
        exact ⟨(c.provider, c.model), by simp, hinv⟩
      | error e =>
        rw [query_llm_aux, if_neg hskip, hinv] at hok ⊢
        simp only at hok ⊢
        obtain ⟨pm, hmem, hpm⟩ := ih ((c.provider, c.model) :: tried)
          (errors ++ [errEntry c.provider c.model e]) hok
        exact ⟨pm, List.mem_cons_of_mem _ hmem, hpm⟩

theorem query_llm_aux_nodup (invoke : String → String → String → Except String String)
    (prompt : String) (configs : List ProviderConfig) (tried : List (String × String))
    (errors : List String) :
    (query_llm_aux invoke prompt configs tried errors).2.Nodup ∧
    ∀ pm ∈ (query_llm_aux invoke prompt configs tried errors).2, pm ∉ tried := by
  induction configs generalizing tried errors with
  | nil => simp [query_llm_aux]
  | cons c cs ih =>
    by_cases hskip : c.provider ∉ PROVIDER_FN_keys ∨ (c.provider, c.model) ∈ tried
    · rw [query_llm_aux, if_pos hskip]
      exact ih tried errors
    · rw [query_llm_aux, if_neg hskip]
      push_neg at hskip
      cases hinv : invoke c.provider prompt c.model with
      | ok t => simpa using hskip.2
      | error e =>
        obtain ⟨ihn, iht⟩ := ih ((c.provider, c.model) :: tried)
          (errors ++ [errEntry c.provider c.model e])
        refine ⟨List.nodup_cons.mpr ⟨fun hmem => ?_, ihn⟩, ?_⟩
        · exact (iht _ hmem) (List.mem_cons_self _ _)
        · intro pm hpm
          rcases List.mem_cons.mp hpm with h | h
          · subst h; exact hskip.2
          · intro hmem
            exact (iht _ h) (List.mem_cons_of_mem _ hmem)

theorem query_llm_aux_error (invoke : String → String → String → Except String String)
    (prompt : String) (configs : List ProviderConfig) (tried : List (String × String))
    (errors : List String) (msg : String)
    (herr : (query_llm_aux invoke prompt configs tried errors).1 = Except.error msg) :
    msg = allFailedMsg (errors ++ (query_llm_aux invoke prompt configs tried errors).2.map
        (fun pm => errEntry pm.1 pm.2 (invokeErr invoke prompt pm.1 pm.2))) ∧
    ∀ pm ∈ (query_llm_aux invoke prompt configs tried errors).2,
      ∃ e, invoke pm.1 prompt pm.2 = Except.error e := by
  induction configs generalizing tried errors with
  | nil =>
    rw [query_llm_aux] at herr ⊢
    simp at herr
    simpa using herr.symm
  | cons c cs ih =>
    by_cases hskip : c.provider ∉ PROVIDER_FN_keys ∨ (c.provider, c.model) ∈ tried
    · rw [query_llm_aux, if_pos hskip] at herr ⊢
      exact ih tried errors herr
    · cases hinv : invoke c.provider prompt c.model with
      | ok t =>
        rw [query_llm_aux, if_neg hskip, hinv] at herr
        simp at herr
      | error e =>
        rw [query_llm_aux, if_neg hskip, hinv] at herr ⊢
        simp only at herr
        obtain ⟨ihm, ihe⟩ := ih ((c.provider, c.model) :: tried)
          (errors ++ [errEntry c.provider c.model e]) herr
        constructor
        · rw [ihm]
          simp [invokeErr, hinv]
        · intro pm hpm
          simp only at hpm
          rcases List.mem_cons.mp hpm with h | h
          · subst h; exact ⟨e, hinv⟩
          · exact ihe _ h

theorem query_llm_aux_registered (invoke : String → String → String → Except String String)
    (prompt : String) (configs : List ProviderConfig) (tried : List (String × String))
    (errors : List String) :
    ∀ pm ∈ (query_llm_aux invoke prompt configs tried errors).2, pm.1 ∈ PROVIDER_FN_keys := by
  induction configs generalizing tried errors with
  | nil => simp [query_llm_aux]
  | cons c cs ih =>
    by_cases hskip : c.provider ∉ PROVIDER_FN_keys ∨ (c.provider, c.model) ∈ tried
    · rw [query_llm_aux, if_pos hskip]
      exact ih tried errors
    · rw [query_llm_aux, if_neg hskip]
      push_neg at hskip
      cases hinv : invoke c.provider prompt c.model with
      | ok t => simpa using hskip.1
      | error e =>
        intro pm hpm
        rcases List.mem_cons.mp hpm with h | h
        · subst h; exact hskip.1
        · exact ih _ _ _ h

theorem query_llm_aux_skip_filtered (invoke : String → String → String → Except String String)
    (prompt : String) (q m' : String) (hq : q ∉ PROVIDER_FN_keys)
    (priority : List ProviderConfig) (tried : List (String × String)) (errors : List String) :
    query_llm_aux invoke prompt
      (priority.filter (fun c =>
        !(decide ((Option.some c.provider, Option.some c.model) = (Option.some q, Option.some m')))))
      tried errors
    = query_llm_aux invoke prompt priority tried errors := by
  induction priority generalizing tried errors with
  | nil => rfl
  | cons c cs ih =>
    by_cases hc : (Option.some c.provider, Option.some c.model) = (Option.some q, Option.some m')
    · have hcp : c.provider = q := by simpa using congrArg Prod.fst hc
      have hcm : c.model = m' := by simpa using congrArg Prod.snd hc
      rw [List.filter_cons_of_neg (by simp [hc])]
      rw [ih tried errors]
      have hskip : c.provider ∉ PROVIDER_FN_keys ∨ (c.provider, c.model) ∈ tried :=
        Or.inl (by rw [hcp]; exact hq)
      rw [query_llm_aux, if_pos hskip]
    · rw [List.filter_cons_of_pos (by simp [hc])]
      by_cases hskip : c.provider ∉ PROVIDER_FN_keys ∨ (c.provider, c.model) ∈ tried
      · rw [query_llm_aux, if_pos hskip, query_llm_aux, if_pos hskip]
        exact ih tried errors
      · rw [query_llm_aux, if_neg hskip, query_llm_aux, if_neg hskip]
        cases hinv : invoke c.provider prompt c.model with
        | ok t => rfl
        | error e =>
          simp only
          rw [ih]

/-- Claim C1: for every prompt and candidate list, if the first attempted
candidate's invoker returns (possibly non-empty) text, `query_llm` returns
exactly that text and invokes no further candidate's invoker: the trace of
invoked candidates consists of that single pair. -/
theorem c1_first_success_short_circuits
    (invoke : String → String → String → Except String String)
    (prompt : String) (priority : List ProviderConfig) (provider model : Option String)
    (p m : String) (rest : List (String × String)) (t : String)
    (htrace : (query_llm invoke prompt priority provider model).2 = (p, m) :: rest)
    (hok : invoke p prompt m = Except.ok t) (hne : t ≠ "") :
    query_llm invoke prompt priority provider model = (Except.ok t, [(p, m)]) :=
  query_llm_aux_first_ok invoke prompt _ _ _ p m rest t htrace hok

/-- Witness for C1 at a concrete oracle: with the groq invoker returning
"hello", the orchestrator returns "hello" and attempts only groq. -/
theorem c1_witness :
    query_llm helloInvoke "hi" LLM_PRIORITY Option.none Option.none =
      (Except.ok "hello", [("groq", "llama3-70b-8192")]) :=
  c1_first_success_short_circuits helloInvoke "hi" LLM_PRIORITY Option.none Option.none
    "groq" "llama3-70b-8192" [] "hello" (by rfl) (by rfl) (by decide)

/-- Claim C3: when every attempted candidate's invoker raises, `query_llm`
raises (models the `RuntimeError`) with a message that is the fixed header
followed by one `provider:model -- reason` entry per attempted candidate
joined by `" | "`, and the attempted candidates are pairwise distinct, so the
diagnostic list has exactly one entry per distinct candidate attempted. -/
theorem c3_all_failed_diagnostics
    (invoke : String → String → String → Except String String)
    (prompt : String) (priority : List ProviderConfig) (provider model : Option String)
    (hall : ∀ pm ∈ (query_llm invoke prompt priority provider model).2,
      ∃ e, invoke pm.1 prompt pm.2 = Except.error e) :
    ∃ msg, (query_llm invoke prompt priority provider model).1 = Except.error msg ∧
      msg = allFailedMsg ((query_llm invoke prompt priority provider model).2.map
        (fun pm => errEntry pm.1 pm.2 (invokeErr invoke prompt pm.1 pm.2))) ∧
      (query_llm invoke prompt priority provider model).2.Nodup := by
  cases hres : (query_llm invoke prompt priority provider model).1 with
  | ok t =>
    obtain ⟨pm, hmem, hok⟩ := query_llm_aux_ok invoke prompt
      (build_config_list provider model priority) [] [] t hres
    obtain ⟨e, he⟩ := hall pm hmem
    rw [hok] at he
    exact absurd he (by simp)
  | error msg =>
    obtain ⟨h1, -⟩ := query_llm_aux_error invoke prompt
      (build_config_list provider model priority) [] [] msg hres
    exact ⟨msg, rfl, by simpa using h1,
      (query_llm_aux_nodup invoke prompt (build_config_list provider model priority) [] []).1⟩

/-- Witness for C3: with every invoker raising "boom", the orchestrator
raises with one entry per attempted candidate. -/
theorem c3_witness :
    (query_llm boomInvoke "hi" LLM_PRIORITY Option.none Option.none).1 =
      Except.error
        "All LLM providers failed. Errors: groq:llama3-70b-8192 -- boom | google:gemini-2.0-flash -- boom" ∧
    ∃ msg, (query_llm boomInvoke "hi" LLM_PRIORITY Option.none Option.none).1 = Except.error msg ∧
      msg = allFailedMsg ((query_llm boomInvoke "hi" LLM_PRIORITY Option.none Option.none).2.map
        (fun pm => errEntry pm.1 pm.2 (invokeErr boomInvoke "hi" pm.1 pm.2))) ∧
      (query_llm boomInvoke "hi" LLM_PRIORITY Option.none Option.none).2.Nodup :=
  ⟨by rfl,
   c3_all_failed_diagnostics boomInvoke "hi" LLM_PRIORITY Option.none Option.none
     (fun pm _ => ⟨"boom", rfl⟩)⟩

/-- Claim C4: no (provider, model) pair is attempted twice within a single
query, and a preferred pair that also appears in the priority list and has a
registered provider is attempted exactly once. -/
theorem c4_no_duplicate_attempts
    (invoke : String → String → String → Except String String)
    (prompt : String) (priority : List ProviderConfig) (provider model : Option String) :
    (query_llm invoke prompt priority provider model).2.Nodup ∧
    (∀ p m, provider = Option.some p → model = Option.some m → p ≠ "" → m ≠ "" →
      p ∈ PROVIDER_FN_keys → ProviderConfig.mk p m ∈ priority →
      ((query_llm invoke prompt priority provider model).2.count (p, m)) = 1) := by
  refine ⟨(query_llm_aux_nodup invoke prompt _ [] []).1, ?_⟩
  intro p m hp hm hpne hmne hreg hmem
  subst hp; subst hm
  have hbuild : build_config_list (Option.some p) (Option.some m) priority =
      ProviderConfig.mk p m ::
        priority.filter (fun c =>
          !(decide ((Option.some c.provider, Option.some c.model) =
            (Option.some p, Option.some m)))) := by
    simp [build_config_list, truthyOpt, hpne, hmne]
  rw [query_llm, hbuild]
  have hskip : ¬((ProviderConfig.mk p m).provider ∉ PROVIDER_FN_keys ∨
      ((ProviderConfig.mk p m).provider, (ProviderConfig.mk p m).model) ∈
        ([] : List (String × String))) := by
    simp [hreg]
  cases hinv : invoke p prompt m with
  | ok t =>
    rw [query_llm_aux, if_neg hskip]
    simp only at hinv ⊢
    rw [hinv]
    simp
  | error e =>
    rw [query_llm_aux, if_neg hskip]
    simp only at hinv ⊢
    rw [hinv]
    simp only
    have hnot := (query_llm_aux_nodup invoke prompt
      (priority.filter (fun c =>
        !(decide ((Option.some c.provider, Option.some c.model) =
          (Option.some p, Option.some m)))))
      [(p, m)] ([] ++ [errEntry p m e])).2
    have : (p, m) ∉ (query_llm_aux invoke prompt
        (priority.filter (fun c =>
          !(decide ((Option.some c.provider, Option.some c.model) =
            (Option.some p, Option.some m)))))
        [(p, m)] ([] ++ [errEntry p m e])).2 := by
      intro hmem2
      exact (hnot _ hmem2) (List.mem_cons_self _ _)
    rw [List.count_cons_self, List.count_eq_zero.mpr this]

/-- Witness for C4: preferring the groq pair that is also first in the
priority list leads to exactly one groq attempt. -/
theorem c4_witness :
    (query_llm boomInvoke "hi" LLM_PRIORITY (Option.some "groq")
        (Option.some "llama3-70b-8192")).2.Nodup ∧
    ((query_llm boomInvoke "hi" LLM_PRIORITY (Option.some "groq")
        (Option.some "llama3-70b-8192")).2.count ("groq", "llama3-70b-8192")) = 1 := by
  have h := c4_no_duplicate_attempts boomInvoke "hi" LLM_PRIORITY
    (Option.some "groq") (Option.some "llama3-70b-8192")
  exact ⟨h.1, h.2 "groq" "llama3-70b-8192" rfl rfl (by decide) (by decide) (by decide) (by decide)⟩

/-- Counterexample to claim C5: with every invoker returning empty text, the
orchestrator returns the empty string as a successful result instead of
falling back. -/
theorem c5_counterexample :
    (query_llm emptyInvoke "hi" LLM_PRIORITY Option.none Option.none).1 = Except.ok "" := rfl

/-- Claim C5 as amended: `query_llm` returns the first non-raising invoker's
result unchanged, even when it is the empty string; empty content does not
trigger fallback to the next candidate. -/
theorem c5_empty_returned_no_fallback
    (invoke : String → String → String → Except String String)
    (prompt : String) (priority : List ProviderConfig) (provider model : Option String)
    (p m : String) (rest : List (String × String))
    (htrace : (query_llm invoke prompt priority provider model).2 = (p, m) :: rest)
    (hok : invoke p prompt m = Except.ok "") :
    query_llm invoke prompt priority provider model = (Except.ok "", [(p, m)]) :=
  query_llm_aux_first_ok invoke prompt _ _ _ p m rest "" htrace hok

/-- Witness for the amended C5: the all-empty oracle makes the orchestrator
return the empty string after attempting only the first candidate. -/
theorem c5_witness :
    query_llm emptyInvoke "hi" LLM_PRIORITY Option.none Option.none =
      (Except.ok "", [("groq", "llama3-70b-8192")]) :=
  c5_empty_returned_no_fallback emptyInvoke "hi" LLM_PRIORITY Option.none Option.none
    "groq" "llama3-70b-8192" [] (by rfl) (by rfl)

/-- Claim C9: every attempted candidate has a provider registered in
`PROVIDER_FN`, and preferring a pair whose provider is unregistered leaves
both the result and the error diagnostics exactly as if no preference had
been given — the unknown pair is skipped without an attempt or an error
entry. -/
theorem c9_unregistered_provider_skipped
    (invoke : String → String → String → Except String String)
    (prompt : String) (priority : List ProviderConfig) :
    (∀ provider model pm, pm ∈ (query_llm invoke prompt priority provider model).2 →
      pm.1 ∈ PROVIDER_FN_keys) ∧
    (∀ q m', q ∉ PROVIDER_FN_keys →
      query_llm invoke prompt priority (Option.some q) (Option.some m') =
        query_llm invoke prompt priority Option.none Option.none) := by
  constructor
  · intro provider model pm hpm
    exact query_llm_aux_registered invoke prompt _ [] [] pm hpm
  · intro q m' hq
    have hfilter := query_llm_aux_skip_filtered invoke prompt q m' hq priority [] []
    have hnone : query_llm invoke prompt priority Option.none Option.none =
        query_llm_aux invoke prompt priority [] [] := by
      unfold query_llm build_config_list
      simp [truthyOpt]
    rw [hnone]
    unfold query_llm build_config_list
    by_cases hqe : q = ""
    · subst hqe
      simpa [truthyOpt] using hfilter
    · by_cases hme : m' = ""
      · subst hme
        simpa [truthyOpt, hqe] using hfilter
      · rw [← hfilter]
        simp only [truthyOpt, hqe, hme]
        have hpref : (if (decide (q ≠ "") && decide (m' ≠ "")) = true then
            [{ provider := (Option.some q).getD "", model := (Option.some m').getD "" }]
          else []) = [ProviderConfig.mk q m'] := by
          simp [hqe, hme]
        rw [hpref]
        have hskip : (ProviderConfig.mk q m').provider ∉ PROVIDER_FN_keys ∨
            ((ProviderConfig.mk q m').provider, (ProviderConfig.mk q m').model) ∈
              ([] : List (String × String)) := Or.inl hq
        rw [List.singleton_append, query_llm_aux, if_pos hskip]

/-- Witness for C9: an "openai" preference (not in the dispatch map) changes
nothing, and a concrete attempted pair has a registered provider. -/
theorem c9_witness :
    query_llm boomInvoke "hi" LLM_PRIORITY (Option.some "openai") (Option.some "gpt-4o") =
      query_llm boomInvoke "hi" LLM_PRIORITY Option.none Option.none ∧
    ("groq", "llama3-70b-8192").1 ∈ PROVIDER_FN_keys := by
  refine ⟨(c9_unregistered_provider_skipped boomInvoke "hi" LLM_PRIORITY).2
    "openai" "gpt-4o" (by decide), ?_⟩
  exact (c9_unregistered_provider_skipped boomInvoke "hi" LLM_PRIORITY).1
    Option.none Option.none ("groq", "llama3-70b-8192") (by decide)

/-! ### Lemmas about parse_framework_suggestion -/

theorem framework_label_exclusive (l : String) :
    pyStartsWith l "framework:" = true → pyStartsWith l "justification:" = true → False := by
  unfold pyStartsWith
  cases hd : l.data with
  | nil =>
    intro h1 _
    rw [show "framework:".data = 'f' :: "ramework:".data from rfl] at h1
    simp [List.isPrefixOf] at h1
  | cons b bs =>
    intro h1 h2
    rw [show "framework:".data = 'f' :: "ramework:".data from rfl] at h1
    rw [show "justification:".data = 'j' :: "ustification:".data from rfl] at h2
    simp [List.isPrefixOf] at h1 h2
    rw [← h1.1] at h2
    exact absurd h2.1 (by decide)

theorem foldl_fwStep (lines : List String) (acc : Option String × String) :
    lines.foldl fwStep acc =
      ((match lastMatch (fun l => pyStartsWith (pyLower l) "framework:") lines with
        | Option.some l => Option.some (pyStrip (splitFirstColonTail l))
        | Option.none => acc.1),
       (match lastMatch (fun l => pyStartsWith (pyLower l) "justification:") lines with
        | Option.some l => pyStrip (splitFirstColonTail l)
        | Option.none => acc.2)) := by
  induction lines generalizing acc with
  | nil => simp [lastMatch]
  | cons h t ih =>
    rw [List.foldl_cons, ih]
    by_cases hf : pyStartsWith (pyLower h) "framework:" = true
    · have hj : pyStartsWith (pyLower h) "justification:" = false := by
        cases hb : pyStartsWith (pyLower h) "justification:" with
        | false => rfl
        | true => exact absurd (framework_label_exclusive _ hf hb) (fun h => h)
      cases hF : lastMatch (fun l => pyStartsWith (pyLower l) "framework:") t <;>
        cases hJ : lastMatch (fun l => pyStartsWith (pyLower l) "justification:") t <;>
          simp [lastMatch, fwStep, hf, hj, hF, hJ]
    · have hf' : pyStartsWith (pyLower h) "framework:" = false := by
        cases hb : pyStartsWith (pyLower h) "framework:" with
        | false => rfl
        | true => exact absurd hb hf
      by_cases hjb : pyStartsWith (pyLower h) "justification:" = true
      · cases hF : lastMatch (fun l => pyStartsWith (pyLower l) "framework:") t <;>
          cases hJ : lastMatch (fun l => pyStartsWith (pyLower l) "justification:") t <;>
            simp [lastMatch, fwStep, hf', hjb, hF, hJ]
      · have hj' : pyStartsWith (pyLower h) "justification:" = false := by
          cases hb : pyStartsWith (pyLower h) "justification:" with
          | false => rfl
          | true => exact absurd hb hjb
        cases hF : lastMatch (fun l => pyStartsWith (pyLower l) "framework:") t <;>
          cases hJ : lastMatch (fun l => pyStartsWith (pyLower l) "justification:") t <;>
            simp [lastMatch, fwStep, hf', hj', hF, hJ]

/-- Counterexample to claim C6: on two "Framework:" lines the extractor keeps
the value of the second line, not the first. -/
theorem c6_counterexample :
    (parse_framework_suggestion "Framework: A\nFramework: B").1 = Option.some "B" ∧
    (((parse_framework_suggestion "Framework: A\nFramework: B").1 == Option.some "A") = false) :=
  ⟨rfl, rfl⟩

/-- Claim C6 as amended: the extractor returns the value of the *last*
"framework:" line (case-insensitive prefix match), taken as the trimmed text
after the line's first colon, with `Option.none` when no such line exists;
"justification:" behaves the same with the empty string as default. -/
theorem c6_last_occurrence_wins (response : String) :
    parse_framework_suggestion response = parse_framework_last_wins response := by
  unfold parse_framework_suggestion parse_framework_last_wins
  rw [foldl_fwStep]
  cases hF : lastMatch (fun l => pyStartsWith (pyLower l) "framework:")
      (pySplitlines (pyStrip response)) <;>
    cases hJ : lastMatch (fun l => pyStartsWith (pyLower l) "justification:")
        (pySplitlines (pyStrip response)) <;>
      simp [hF, hJ]

/-! ### Lemmas about write_text_log -/

theorem string_mk_data (s : String) : String.mk s.data = s := rfl

theorem string_data_mk (l : List Char) : (String.mk l).data = l := rfl

theorem takeWhile_append_all (p : Char → Bool) (l₁ : List Char) (b : Char) (l₂ : List Char)
    (h : ∀ c ∈ l₁, p c = true) (hb : p b = false) :
    (l₁ ++ b :: l₂).takeWhile p = l₁ ∧ (l₁ ++ b :: l₂).dropWhile p = b :: l₂ := by
  induction l₁ with
  | nil => simp [List.takeWhile_cons, List.dropWhile_cons, hb]
  | cons a tl ih =>
    have ha : p a = true := h a (List.mem_cons_self _ _)
    have ht : ∀ c ∈ tl, p c = true := fun c hc => h c (List.mem_cons_of_mem _ hc)
    obtain ⟨h1, h2⟩ := ih ht
    simp [List.takeWhile_cons, List.dropWhile_cons, ha, h1, h2]

theorem digitChar_ne_rbracket (n : Nat) : ¬ (digitChar n = ']') := by
  unfold digitChar
  split <;> decide

theorem not_beq_rbracket_of_ne (c : Char) (h : ¬ c = ']') : (!(c == ']')) = true := by
  simp [h]

theorem timestampChars_ne_rbracket (t : Timestamp) :
    ∀ c ∈ timestampChars t, (!(c == ']')) = true := by
  intro c hc
  simp [timestampChars, pad4, pad2, List.mem_append, List.mem_cons] at hc
  rcases hc with rfl|rfl|rfl|rfl|rfl|rfl|rfl|rfl|rfl|rfl|rfl|rfl|rfl|rfl|rfl|rfl|rfl|rfl|rfl <;>
    first
      | decide
      | exact not_beq_rbracket_of_ne _ (digitChar_ne_rbracket _)

/-- Claim C8: `write_text_log` appends exactly one entry — bracketed
timestamp, one space, the entry text, two newlines — to the previous content,
and reading the entry back recovers the exact entry text and the
`[YYYY-MM-DD HH:MM:SS]` timestamp. -/
theorem c8_append_roundtrip (t : Timestamp) (text old : String) :
    write_text_log t text old = old ++ logEntry t text ∧
    parseLogEntry (logEntry t text) =
      Option.some (String.mk (timestampChars t), text) := by
  refine ⟨rfl, ?_⟩
  unfold parseLogEntry logEntry strftimeBracketed
  have h1 : (" " : String).data = [' '] := rfl
  have h2 : ("\n\n" : String).data = ['\n', '\n'] := rfl
  have hdata : (String.mk ('[' :: timestampChars t ++ [']']) ++ " " ++ text ++ "\n\n").data
      = '[' :: (timestampChars t ++ ']' :: ' ' :: (text.data ++ ['\n', '\n'])) := by
    simp [String.data_append, string_data_mk, h1, h2]
  rw [hdata]
  obtain ⟨htake, hdrop⟩ := takeWhile_append_all (fun c => !(c == ']'))
    (timestampChars t) ']' (' ' :: (text.data ++ ['\n', '\n']))
    (timestampChars_ne_rbracket t) (by decide)
  simp only [hdrop, htake]
  simp [List.reverse_append]

/-! ### Lemmas about extract_list_or_json -/

theorem dropWhile_append_head_false (p : Char → Bool) (l₁ : List Char) (b : Char)
    (l₂ : List Char) (hb : p b = false) :
    (l₁ ++ b :: l₂).dropWhile p = l₁.dropWhile p ++ b :: l₂ := by
  rw [List.dropWhile_append]
  by_cases h : (l₁.dropWhile p).isEmpty
  · rw [if_pos h, List.isEmpty_iff.mp h, List.dropWhile_cons, hb]
    simp
  · rw [if_neg h]

theorem dropWhile_idem (p : Char → Bool) (l : List Char) :
    (l.dropWhile p).dropWhile p = l.dropWhile p := by
  induction l with
  | nil => rfl
  | cons a t ih =>
    rw [List.dropWhile_cons]
    by_cases hp : p a = true
    · simp [hp, ih]
    · have hp' : p a = false := by
        cases hb : p a with
        | false => rfl
        | true => exact absurd hb hp
      simp [List.dropWhile_cons, hp']

theorem mem_of_mem_dropWhile (p : Char → Bool) (l : List Char) (c : Char)
    (h : c ∈ l.dropWhile p) : c ∈ l := by
  induction l with
  | nil => simpa using h
  | cons a t ih =>
    rw [List.dropWhile_cons] at h
    by_cases hp : p a = true
    · rw [if_pos hp] at h
      exact List.mem_cons_of_mem _ (ih h)
    · rw [if_neg hp] at h
      exact h

theorem stripChars_decomp (pre mid post : List Char) :
    stripChars (pre ++ ('[' :: mid ++ [']']) ++ post)
    = pre.dropWhile pyIsSpace ++ ('[' :: mid ++ [']']) ++
        (post.reverse.dropWhile pyIsSpace).reverse := by
  unfold stripChars
  have h1 : pre ++ ('[' :: mid ++ [']']) ++ post = pre ++ '[' :: (mid ++ ']' :: post) := by
    simp
  rw [h1, dropWhile_append_head_false pyIsSpace pre '[' _ (by decide)]
  have h2 : (pre.dropWhile pyIsSpace ++ '[' :: (mid ++ ']' :: post)).reverse
      = post.reverse ++ ']' :: (mid.reverse ++ '[' :: (pre.dropWhile pyIsSpace).reverse) := by
    simp
  rw [h2, dropWhile_append_head_false pyIsSpace post.reverse ']' _ (by decide)]
  simp

theorem afterFirstFence_none (l : List Char) (h : backtickChar ∉ l) :
    afterFirstFence l = Option.none := by
  induction l with
  | nil => rfl
  | cons c1 rest ih =>
    have hc1 : c1 ≠ backtickChar := fun he => h (he ▸ List.mem_cons_self c1 rest)
    have hr : backtickChar ∉ rest := fun hm => h (List.mem_cons_of_mem _ hm)
    cases rest with
    | nil => rfl
    | cons c2 rest2 =>
      cases rest2 with
      | nil => rfl
      | cons c3 rest3 =>
        show (if c1 = backtickChar ∧ c2 = backtickChar ∧ c3 = backtickChar
            then Option.some rest3 else afterFirstFence (c2 :: c3 :: rest3)) = Option.none
        rw [if_neg (fun hand => hc1 hand.1)]
        exact ih hr

theorem truncFence_id (l : List Char) (h : backtickChar ∉ l) : truncFence l = l := by
  induction l with
  | nil => rfl
  | cons c1 rest ih =>
    have hc1 : c1 ≠ backtickChar := fun he => h (he ▸ List.mem_cons_self c1 rest)
    have hr : backtickChar ∉ rest := fun hm => h (List.mem_cons_of_mem _ hm)
    cases rest with
    | nil => rfl
    | cons c2 rest2 =>
      cases rest2 with
      | nil =>
        show c1 :: truncFence [c2] = c1 :: [c2]
        rw [ih hr]
      | cons c3 rest3 =>
        show (if c1 = backtickChar ∧ c2 = backtickChar ∧ c3 = backtickChar
            then [] else c1 :: truncFence (c2 :: c3 :: rest3)) = c1 :: c2 :: c3 :: rest3
        rw [if_neg (fun hand => hc1 hand.1), ih hr]

theorem bracketSliceChars_decomp (preD mid postD : List Char)
    (h1 : '[' ∉ preD) (h2 : ']' ∉ postD) :
    bracketSliceChars (preD ++ ('[' :: mid ++ [']']) ++ postD)
      = Option.some ('[' :: mid ++ [']']) := by
  unfold bracketSliceChars
  have hassoc : preD ++ ('[' :: mid ++ [']']) ++ postD = preD ++ '[' :: (mid ++ ']' :: postD) := by
    simp
  rw [hassoc]
  have hallpre : ∀ c ∈ preD, (!(c == '[')) = true := by
    intro c hc
    have : c ≠ '[' := fun he => h1 (he ▸ hc)
    simp [this]
  obtain ⟨htake, -⟩ := takeWhile_append_all (fun c => !(c == '['))
    preD '[' (mid ++ ']' :: postD) hallpre (by decide)
  have hrev : ('[' :: (mid ++ ']' :: postD)).reverse
      = postD.reverse ++ ']' :: (mid.reverse ++ ['[']) := by
    simp
  have hallpost : ∀ c ∈ postD.reverse, (!(c == ']')) = true := by
    intro c hc
    have : c ≠ ']' := fun he => h2 (he ▸ List.mem_reverse.mp hc)
    simp [this]
  obtain ⟨htake2, -⟩ := takeWhile_append_all (fun c => !(c == ']'))
    postD.reverse ']' (mid.reverse ++ ['[']) hallpost (by decide)
  simp only [htake]
  rw [List.drop_left]
  simp only [hrev, htake2]
  have hlen : ('[' :: (mid ++ ']' :: postD)).length = mid.length + 2 + postD.length := by
    simp
    omega
  have hcond : ¬(('[' :: (mid ++ ']' :: postD)).length = 0 ∨
      postD.reverse.length = ('[' :: (mid ++ ']' :: postD)).length) := by
    simp [hlen]
  rw [if_neg hcond]
  have hassoc2 : '[' :: (mid ++ ']' :: postD) = ('[' :: mid ++ [']']) ++ postD := by
    simp
  have harith : ('[' :: (mid ++ ']' :: postD)).length - postD.reverse.length
      = ('[' :: mid ++ [']']).length := by
    simp
    omega
  rw [harith, hassoc2, List.take_left]

theorem extractChars_decomp (pre mid post : List Char)
    (hpre1 : '[' ∉ pre) (hpre2 : backtickChar ∉ pre)
    (hmid : backtickChar ∉ mid)
    (hpost1 : ']' ∉ post) (hpost2 : backtickChar ∉ post) :
    extractChars (pre ++ ('[' :: mid ++ [']']) ++ post)
      = extractChars ('[' :: mid ++ [']']) := by
  have hpreD1 : '[' ∉ pre.dropWhile pyIsSpace :=
    fun hm => hpre1 (mem_of_mem_dropWhile _ _ _ hm)
  have hpreD2 : backtickChar ∉ pre.dropWhile pyIsSpace :=
    fun hm => hpre2 (mem_of_mem_dropWhile _ _ _ hm)
  have hpostD1 : ']' ∉ (post.reverse.dropWhile pyIsSpace).reverse := by
    intro hm
    exact hpost1 (List.mem_reverse.mp (mem_of_mem_dropWhile _ _ _ (List.mem_reverse.mp hm)))
  have hpostD2 : backtickChar ∉ (post.reverse.dropWhile pyIsSpace).reverse := by
    intro hm
    exact hpost2 (List.mem_reverse.mp (mem_of_mem_dropWhile _ _ _ (List.mem_reverse.mp hm)))
  have hcore : backtickChar ∉ ('[' :: mid ++ [']']) := by
    intro hm
    rcases List.mem_cons.mp hm with h | h
    · exact absurd h (by decide)
    · rcases List.mem_append.mp h with h' | h'
      · exact hmid h'
      · exact absurd (List.mem_singleton.mp h') (by decide)
  have hnb : backtickChar ∉ (pre.dropWhile pyIsSpace ++ ('[' :: mid ++ [']']) ++
      (post.reverse.dropWhile pyIsSpace).reverse) := by
    intro hm
    rcases List.mem_append.mp hm with h | h
    · rcases List.mem_append.mp h with h' | h'
      · exact hpreD2 h'
      · exact hcore h'
    · exact hpostD2 h
  simp only [extractChars]
  rw [stripChars_decomp pre mid post]
  rw [show stripLeadingFenceChars (pre.dropWhile pyIsSpace ++ ('[' :: mid ++ [']']) ++
      (post.reverse.dropWhile pyIsSpace).reverse) =
      (pre.dropWhile pyIsSpace ++ ('[' :: mid ++ [']']) ++
        (post.reverse.dropWhile pyIsSpace).reverse) from by
    unfold stripLeadingFenceChars
    rw [afterFirstFence_none _ hnb]]
  rw [truncFence_id _ hnb]
  rw [stripChars_decomp (pre.dropWhile pyIsSpace) mid
    ((post.reverse.dropWhile pyIsSpace).reverse)]
  rw [dropWhile_idem pyIsSpace pre]
  rw [List.reverse_reverse, dropWhile_idem pyIsSpace post.reverse]
  rw [bracketSliceChars_decomp _ mid _ hpreD1 hpostD1]
  -- the right-hand side strips to itself and slices to the same payload
  rw [show stripChars ('[' :: mid ++ [']']) = ('[' :: mid ++ [']']) from by
    have h := stripChars_decomp [] mid []
    simpa using h]
  rw [show stripLeadingFenceChars ('[' :: mid ++ [']']) = ('[' :: mid ++ [']']) from by
    unfold stripLeadingFenceChars
    rw [afterFirstFence_none _ hcore]]
  rw [truncFence_id _ hcore]
  rw [show stripChars ('[' :: mid ++ [']']) = ('[' :: mid ++ [']']) from by
    have h := stripChars_decomp [] mid []
    simpa using h]
  rw [show bracketSliceChars ('[' :: mid ++ [']']) = Option.some ('[' :: mid ++ [']']) from by
    have h := bracketSliceChars_decomp [] mid [] (by simp) (by simp)
    simpa using h]

/-- Claim C7: `extract_list_or_json` ignores fence-free commentary before the
first `'['` and after the last `']'` — the candidate payload is exactly the
span between them — and on that payload it tries the strict JSON reader
first, then the permissive literal reader (shown on a single-quoted payload
that strict JSON rejects), and returns the empty list when both fail, as on
an input with unbalanced brackets. -/
theorem c7_extraction_pipeline :
    (∀ (pre post : String) (mid : List Char),
      '[' ∉ pre.data → backtickChar ∉ pre.data → backtickChar ∉ mid →
      ']' ∉ post.data → backtickChar ∉ post.data →
      extract_list_or_json (pre ++ String.mk ('[' :: mid ++ [']']) ++ post) =
        extract_list_or_json (String.mk ('[' :: mid ++ [']']))) ∧
    extract_list_or_json "Here is your data:\n[\x7b\"tool\":\"X\"\x7d]\nThanks!" =
      PyVal.list [PyVal.dict [(PyVal.str "tool", PyVal.str "X")]] ∧
    (jsonLoadsChars "['a', 'b']".data = Option.none ∧
      extract_list_or_json "['a', 'b']" = PyVal.list [PyVal.str "a", PyVal.str "b"]) ∧
    extract_list_or_json "[\x7b\"tool\": \"X\"\x7d" = PyVal.list [] := by
  refine ⟨?_, rfl, ⟨rfl, rfl⟩, rfl⟩
  intro pre post mid h1 h2 h3 h4 h5
  show extractChars (pre ++ String.mk ('[' :: mid ++ [']']) ++ post).data = _
  have hd : (pre ++ String.mk ('[' :: mid ++ [']']) ++ post).data
      = pre.data ++ ('[' :: mid ++ [']']) ++ post.data := by
    simp [String.data_append, string_data_mk]
  rw [hd, extractChars_decomp pre.data mid post.data h1 h2 h3 h4 h5]
  rfl

/-- Witness for C7: the spec's example input, with commentary around the
bracketed payload, extracts the same value as the payload alone. -/
theorem c7_witness :
    extract_list_or_json
        ("Here is your data:\n" ++ String.mk ('[' :: "\x7b\"tool\":\"X\"\x7d".data ++ [']']) ++ "\nThanks!")
      = extract_list_or_json (String.mk ('[' :: "\x7b\"tool\":\"X\"\x7d".data ++ [']'])) :=
  c7_extraction_pipeline.1 "Here is your data:\n" "\nThanks!" "\x7b\"tool\":\"X\"\x7d".data
    (by decide) (by decide) (by decide) (by decide) (by decide)

/-- Claim C10: on a bare JSON object with no bracketed span, the whole
remaining text is parsed and the mapping itself is returned — a value that is
not a sequence. -/
theorem c10_bare_object_returned :
    extract_list_or_json "\x7b\"tool\": \"X\"\x7d" = PyVal.dict [(PyVal.str "tool", PyVal.str "X")] ∧
    isSequence (extract_list_or_json "\x7b\"tool\": \"X\"\x7d") = false := ⟨rfl, rfl⟩
